import Mathlib

/-!
Verification of the block-graph context engine: JSON canonicalization and
hashing, deterministic views, query merging, sensitivity forking, compaction
provenance, and Gemini role alternation, embedded shallowly from the
TypeScript source.
-/

namespace ContextSpec

/-- JSON values as produced by the codecs: the payloads and metadata the
engine serializes. Object fields keep their insertion order, as JavaScript
objects do. Numbers are modelled as integers (every number the engine
serializes is an integer timestamp or count). -/
inductive Json where
  | null : Json
  | bool (b : Bool) : Json
  | num (n : Int) : Json
  | str (s : String) : Json
  | arr (xs : List Json) : Json
  | obj (fields : List (String × Json)) : Json

/-- One lower-case hex digit. -/
def hexDigitChar (n : Nat) : Char :=
  if n < 10 then Char.ofNat (48 + n) else Char.ofNat (87 + n % 16)

/-- One character of a JSON string escaped as JSON.stringify escapes it:
quote and backslash get a backslash, control characters get their short
escape or a uXXXX escape, everything else is kept as is. -/
def escapeChar (c : Char) : String :=
  if c = Char.ofNat 34 then "\\" ++ String.singleton (Char.ofNat 34)
  else if c = Char.ofNat 92 then "\\\\"
  else if c = Char.ofNat 10 then "\\n"
  else if c = Char.ofNat 13 then "\\r"
  else if c = Char.ofNat 9 then "\\t"
  else if c = Char.ofNat 8 then "\\b"
  else if c = Char.ofNat 12 then "\\f"
  else if c.toNat < 32 then
    "\\u00" ++ String.singleton (hexDigitChar (c.toNat / 16))
      ++ String.singleton (hexDigitChar (c.toNat % 16))
  else String.singleton c

/-- A JSON string literal: double quotes around the escaped characters. -/
def quoteJson (s : String) : String :=
  String.singleton (Char.ofNat 34)
    ++ String.join (s.data.map escapeChar)
    ++ String.singleton (Char.ofNat 34)

mutual
/-- JSON.stringify: compact serialization with no whitespace, fields in
their stored order. -/
def Json.stringify : Json → String
  | .null => "null"
  | .bool true => "true"
  | .bool false => "false"
  | .num n => toString n
  | .str s => quoteJson s
  | .arr xs => "[" ++ stringifyElems xs ++ "]"
  | .obj fs => "\x7b" ++ stringifyFields fs ++ "\x7d"
termination_by structural j => j

/-- Serialize array elements, comma separated. -/
def stringifyElems : List Json → String
  | [] => ""
  | [x] => Json.stringify x
  | x :: y :: xs => Json.stringify x ++ "," ++ stringifyElems (y :: xs)
termination_by structural l => l

/-- Serialize object fields, comma separated, each as key:value. -/
def stringifyFields : List (String × Json) → String
  | [] => ""
  | [(k, v)] => quoteJson k ++ ":" ++ Json.stringify v
  | (k, v) :: f :: fs => quoteJson k ++ ":" ++ Json.stringify v ++ "," ++ stringifyFields (f :: fs)
termination_by structural l => l
end

/-- Insert into a sorted list, after any elements that compare
less-or-equal, so the sort built on it is stable. -/
def insertLe (le : α → α → Bool) (a : α) : List α → List α
  | [] => [a]
  | b :: bs => if le b a then b :: insertLe le a bs else a :: b :: bs

/-- Stable sort by a boolean comparison, modelling the stable JavaScript
Array sort (the engine only ever sorts by total preorders, for which every
stable sort produces the same list). -/
def stableSort (le : α → α → Bool) (l : List α) : List α :=
  l.foldl (fun acc a => insertLe le a acc) []

/-- Strict lexicographic order on character lists by code point, the order
JavaScript string comparison uses (code units and code points agree on all
the ASCII strings the engine compares). -/
def charListLt : List Char → List Char → Bool
  | [], [] => false
  | [], _ :: _ => true
  | _ :: _, [] => false
  | c :: cs, d :: ds =>
    decide (c.toNat < d.toNat) || (decide (c.toNat = d.toNat) && charListLt cs ds)

/-- Strict lexicographic order on strings. -/
def strLt (a b : String) : Bool := charListLt a.data b.data

/-- Lexicographic less-or-equal on strings. -/
def strLe (a b : String) : Bool := strLt a b || a == b

/-- Field comparison used when sorting object keys: keys compared as
strings, like the default JavaScript Array sort over Object.keys. -/
def fieldLe (a b : String × Json) : Bool := strLe a.1 b.1

mutual
/-- sortObjectKeys from codecs/base: sorts the keys of an object and
recurses into values that are themselves objects, but arrays (and anything
inside them) are kept verbatim; on a non-object value it is the identity,
matching the source, which only recurses into plain objects. Iterating the
sorted unique keys of a JavaScript object and indexing into it is the same
as sorting the field list by key, which is how it is written here. -/
def sortObjectKeys : Json → Json
  | .obj fs => .obj (stableSort fieldLe (sortFieldVals fs))
  | j => j
termination_by structural j => j

/-- Process the values of an object for sortObjectKeys: recurse into plain
objects, keep every other value (arrays included) verbatim. -/
def sortFieldVals : List (String × Json) → List (String × Json)
  | [] => []
  | (k, v) :: fs => (k, sortObjectKeys v) :: sortFieldVals fs
termination_by structural l => l
end

mutual
/-- Modelled from the spec: JSON with keys sorted recursively at every
object nesting level, including objects nested inside arrays. This is the
serialization the block-hash claim describes; it is compared against what
the code computes. -/
def specSortJson : Json → Json
  | .obj fs => .obj (stableSort fieldLe (specSortFields fs))
  | .arr xs => .arr (specSortElems xs)
  | j => j
termination_by structural j => j

/-- Recursively key-sort every array element. -/
def specSortElems : List Json → List Json
  | [] => []
  | x :: xs => specSortJson x :: specSortElems xs
termination_by structural l => l

/-- Recursively key-sort every field value. -/
def specSortFields : List (String × Json) → List (String × Json)
  | [] => []
  | (k, v) :: fs => (k, specSortJson v) :: specSortFields fs
termination_by structural l => l
end

mutual
/-- True when a JSON value contains no array anywhere. -/
def arrayFreeJson : Json → Bool
  | .arr _ => false
  | .obj fs => arrayFreeFields fs
  | _ => true
termination_by structural j => j

/-- True when no field value contains an array. -/
def arrayFreeFields : List (String × Json) → Bool
  | [] => true
  | (_, v) :: fs => arrayFreeJson v && arrayFreeFields fs
termination_by structural l => l
end

/-- Look up a field of a JSON object. -/
def Json.getField (j : Json) (k : String) : Option Json :=
  match j with
  | .obj fs => fs.lookup k
  | _ => none


/-!
SHA-256, as the crypto library computes it for createHash, over byte lists
(each byte a Nat below 256), with 32-bit words as Nat reduced mod 2 ^ 32.
-/

/-- Reduce to a 32-bit word. -/
def w32 (x : Nat) : Nat := x % 4294967296

/-- Right rotation of a 32-bit word. -/
def rotr (x n : Nat) : Nat := w32 ((x >>> n) ||| (x <<< (32 - n)))

/-- The 64 SHA-256 round constants, written in decimal. -/
def shaK : List Nat :=
  [1116352408, 1899447441, 3049323471, 3921009573, 961987163, 1508970993,
   2453635748, 2870763221, 3624381080, 310598401, 607225278, 1426881987,
   1925078388, 2162078206, 2614888103, 3248222580, 3835390401, 4022224774,
   264347078, 604807628, 770255983, 1249150122, 1555081692, 1996064986,
   2554220882, 2821834349, 2952996808, 3210313671, 3336571891, 3584528711,
   113926993, 338241895, 666307205, 773529912, 1294757372, 1396182291,
   1695183700, 1986661051, 2177026350, 2456956037, 2730485921, 2820302411,
   3259730800, 3345764771, 3516065817, 3600352804, 4094571909, 275423344,
   430227734, 506948616, 659060556, 883997877, 958139571, 1322822218,
   1537002063, 1747873779, 1955562222, 2024104815, 2227730452, 2361852424,
   2428436474, 2756734187, 3204031479, 3329325298]

/-- The 8 initial SHA-256 hash values, written in decimal. -/
def shaH0 : List Nat :=
  [1779033703, 3144134277, 1013904242, 2773480762,
   1359893119, 2600822924, 528734635, 1541459225]

/-- Big-endian 8-byte encoding of a length in bits. -/
def be64 (n : Nat) : List Nat :=
  [(n >>> 56) % 256, (n >>> 48) % 256, (n >>> 40) % 256, (n >>> 32) % 256,
   (n >>> 24) % 256, (n >>> 16) % 256, (n >>> 8) % 256, n % 256]

/-- SHA-256 message padding: a 0x80 byte, zeros to 56 mod 64, then the
bit length, big-endian over 8 bytes. -/
def sha256Pad (msg : List Nat) : List Nat :=
  msg ++ [0x80] ++ List.replicate ((64 - ((msg.length + 9) % 64)) % 64) 0
      ++ be64 (msg.length * 8)

/-- Split into 64-byte chunks: accumulate bytes (in reverse) until a chunk
is full. The padded message length is a multiple of 64, so the leftover
check only fires on the empty message. -/
def chunksGo : List Nat → List Nat → List (List Nat)
  | [], acc => if acc.isEmpty then [] else [acc.reverse]
  | b :: rest, acc =>
    if acc.length = 63 then (b :: acc).reverse :: chunksGo rest []
    else chunksGo rest (b :: acc)

/-- Split into 64-byte chunks. -/
def chunks64 (l : List Nat) : List (List Nat) := chunksGo l []

/-- Four big-endian bytes to one 32-bit word, over a whole chunk. -/
def toWords : List Nat → List Nat
  | a :: b :: c :: d :: rest => (((a * 256 + b) * 256 + c) * 256 + d) :: toWords rest
  | _ => []

/-- Word lookup in the message schedule. -/
def wAt (w : List Nat) (i : Nat) : Nat := w.getD i 0

/-- Append the next scheduled word, n more times. -/
def extendGo : Nat → List Nat → List Nat
  | 0, w => w
  | n + 1, w =>
    let i := w.length
    let s0 := w32 (rotr (wAt w (i - 15)) 7 ^^^ rotr (wAt w (i - 15)) 18 ^^^ (wAt w (i - 15) >>> 3))
    let s1 := w32 (rotr (wAt w (i - 2)) 17 ^^^ rotr (wAt w (i - 2)) 19 ^^^ (wAt w (i - 2) >>> 10))
    extendGo n (w ++ [w32 (wAt w (i - 16) + s0 + wAt w (i - 7) + s1)])

/-- Extend the 16 chunk words to the 64-entry message schedule. -/
def extendTo64 (w : List Nat) : List Nat := extendGo (64 - w.length) w

/-- The 8-word working state of the compression loop. -/
structure ShaState where
  sa : Nat
  sb : Nat
  sc : Nat
  sd : Nat
  se : Nat
  sf : Nat
  sg : Nat
  sh : Nat

/-- One round of the SHA-256 compression function. -/
def shaRound (st : ShaState) (kw : Nat × Nat) : ShaState :=
  let e1 := w32 (rotr st.se 6 ^^^ rotr st.se 11 ^^^ rotr st.se 25)
  let ch := w32 ((st.se &&& st.sf) ^^^ ((st.se ^^^ 4294967295) &&& st.sg))
  let t1 := w32 (st.sh + e1 + ch + kw.1 + kw.2)
  let e0 := w32 (rotr st.sa 2 ^^^ rotr st.sa 13 ^^^ rotr st.sa 22)
  let mj := w32 ((st.sa &&& st.sb) ^^^ (st.sa &&& st.sc) ^^^ (st.sb &&& st.sc))
  let t2 := w32 (e0 + mj)
  ⟨w32 (t1 + t2), st.sa, st.sb, st.sc, w32 (st.sd + t1), st.se, st.sf, st.sg⟩

/-- Compress one 64-byte chunk into the running hash. -/
def compressBlock (hs : List Nat) (chunk : List Nat) : List Nat :=
  let w := extendTo64 (toWords chunk)
  let init : ShaState :=
    ⟨wAt hs 0, wAt hs 1, wAt hs 2, wAt hs 3, wAt hs 4, wAt hs 5, wAt hs 6, wAt hs 7⟩
  let st := (shaK.zip w).foldl shaRound init
  [w32 (wAt hs 0 + st.sa), w32 (wAt hs 1 + st.sb), w32 (wAt hs 2 + st.sc),
   w32 (wAt hs 3 + st.sd), w32 (wAt hs 4 + st.se), w32 (wAt hs 5 + st.sf),
   w32 (wAt hs 6 + st.sg), w32 (wAt hs 7 + st.sh)]

/-- SHA-256 digest of a byte list, as 32 bytes. -/
def sha256 (msg : List Nat) : List Nat :=
  let hs := (chunks64 (sha256Pad msg)).foldl compressBlock shaH0
  hs.foldr (fun x acc => (x >>> 24) % 256 :: (x >>> 16) % 256 :: (x >>> 8) % 256 :: x % 256 :: acc) []

/-- Lower-case hex string of a byte list. -/
def bytesToHex (bs : List Nat) : String :=
  String.mk (bs.foldr (fun b acc => hexDigitChar (b / 16 % 16) :: hexDigitChar (b % 16) :: acc) [])

/-- Hex-encoded SHA-256 digest, as crypto createHash digest hex returns. -/
def sha256Hex (msg : List Nat) : String := bytesToHex (sha256 msg)

/-- UTF-8 bytes of one character. -/
def utf8Char (c : Char) : List Nat :=
  let n := c.toNat
  if n < 0x80 then [n]
  else if n < 0x800 then [0xC0 ||| (n >>> 6), 0x80 ||| (n &&& 0x3F)]
  else if n < 0x10000 then
    [0xE0 ||| (n >>> 12), 0x80 ||| ((n >>> 6) &&& 0x3F), 0x80 ||| (n &&& 0x3F)]
  else
    [0xF0 ||| (n >>> 18), 0x80 ||| ((n >>> 12) &&& 0x3F), 0x80 ||| ((n >>> 6) &&& 0x3F),
     0x80 ||| (n &&& 0x3F)]

/-- UTF-8 encoding of a string, the bytes the hash update consumes. -/
def strBytes (s : String) : List Nat :=
  (s.data.map utf8Char).flatten

/-!
The block data model from types/block, and the content-addressed hash from
types/hash.
-/

/-- The closed block-kind enumeration, in KIND_ORDER. -/
inductive BlockKind where
  | pinned : BlockKind
  | reference : BlockKind
  | memory : BlockKind
  | state : BlockKind
  | tool_output : BlockKind
  | history : BlockKind
  | turn : BlockKind
deriving DecidableEq, Repr

/-- The sensitivity enumeration, ordered public, internal, restricted. -/
inductive Sensitivity where
  | public : Sensitivity
  | internal : Sensitivity
  | restricted : Sensitivity
deriving DecidableEq, Repr

/-- The JSON string of a block kind. -/
def kindStr : BlockKind → String
  | .pinned => "pinned"
  | .reference => "reference"
  | .memory => "memory"
  | .state => "state"
  | .tool_output => "tool_output"
  | .history => "history"
  | .turn => "turn"

/-- The JSON string of a sensitivity level. -/
def sensStr : Sensitivity → String
  | .public => "public"
  | .internal => "internal"
  | .restricted => "restricted"

/-- Full block metadata: kind, sensitivity, codec id and version, created-at
timestamp in unix seconds, optional source and tags. -/
structure BlockMeta where
  kind : BlockKind
  sensitivity : Sensitivity
  codecId : String
  codecVersion : String
  createdAt : Nat
  source : Option String
  tags : Option (List String)
deriving DecidableEq, Repr

/-- The stable metadata subset used for hashing, without the volatile
createdAt, source and tags. -/
structure StableMetaSubset where
  kind : BlockKind
  sensitivity : Sensitivity
  codecId : String
  codecVersion : String
deriving DecidableEq, Repr

/-- extractStableMetaSubset from types/hash: keep kind, sensitivity,
codecId and codecVersion, drop the volatile fields. -/
def extractStableMetaSubset (meta : BlockMeta) : StableMetaSubset :=
  { kind := meta.kind
    sensitivity := meta.sensitivity
    codecId := meta.codecId
    codecVersion := meta.codecVersion }

/-- The stable metadata subset as the JSON object the hash serializes: its
keys appear in the construction order of the source object literal, which
is kind, sensitivity, codecId, codecVersion. -/
def stableMetaJson (s : StableMetaSubset) : Json :=
  .obj [("kind", .str (kindStr s.kind)),
        ("sensitivity", .str (sensStr s.sensitivity)),
        ("codecId", .str s.codecId),
        ("codecVersion", .str s.codecVersion)]

/-- computeBlockHash from types/hash, for a full metadata record (the
createdAt-in-meta branch): SHA-256 of JSON.stringify of the object with
the stable meta subset under key meta and the canonicalized payload under
key payload. The codec argument is its canonicalize function; when absent
the payload is hashed as given. -/
def computeBlockHash (meta : BlockMeta) (payload : Json) (codec : Option (Json → Json)) :
    String :=
  let stableMeta := extractStableMetaSubset meta
  let canonicalized := match codec with
    | some canonicalize => canonicalize payload
    | none => payload
  let combined : Json := .obj [("meta", stableMetaJson stableMeta), ("payload", canonicalized)]
  sha256Hex (strBytes (Json.stringify combined))

/-- A context block: content-addressed hash, metadata, payload. -/
structure ContextBlock where
  blockHash : String
  meta : BlockMeta
  payload : Json

/-!
Kind ordering from graph/kind-order, the query filter from graph/queries,
and the graph with its select operation from graph/context-graph.
-/

/-- getKindIndex: the index of a kind in KIND_ORDER. The kind type is the
closed enumeration, so the not-found branch of indexOf cannot fire. -/
def getKindIndex : BlockKind → Nat
  | .pinned => 0
  | .reference => 1
  | .memory => 2
  | .state => 3
  | .tool_output => 4
  | .history => 5
  | .turn => 6

/-- compareKinds: index difference as an integer; negative when a comes
first. -/
def compareKinds (a b : BlockKind) : Int :=
  (getKindIndex a : Int) - (getKindIndex b : Int)

/-- The sensitivity order index from SENSITIVITY_ORDER. -/
def sensIndex : Sensitivity → Nat
  | .public => 0
  | .internal => 1
  | .restricted => 2

/-- compareSensitivity: order-index difference. -/
def compareSensitivity (a b : Sensitivity) : Int :=
  (sensIndex a : Int) - (sensIndex b : Int)

/-- A block query: every absent criterion is unconstrained, present
criteria AND-combine. -/
structure BlockQuery where
  kinds : Option (List BlockKind) := none
  tags : Option (List String) := none
  minSensitivity : Option Sensitivity := none
  maxSensitivity : Option Sensitivity := none
  source : Option String := none
  minCreatedAt : Option Nat := none
  maxCreatedAt : Option Nat := none
  derivedFromAny : Option (List String) := none
  notDerivedFromAny : Option (List String) := none
  referencesAny : Option (List String) := none
  excludeHashes : Option (List String) := none
  maxTokens : Option Nat := none

/-- The graph: blocks in insertion order (the values of the hash-keyed
map), and the derivation and reference edges as hash-keyed adjacency
lists. -/
structure ContextGraph where
  blocks : List ContextBlock
  derivedFrom : List (String × List String)
  references : List (String × List String)

/-- getDerivedFrom: parent hashes recorded for a block, empty when none. -/
def getDerivedFrom (g : ContextGraph) (h : String) : List String :=
  (g.derivedFrom.lookup h).getD []

/-- getReferences: reference hashes recorded for a block, empty when
none. -/
def getReferences (g : ContextGraph) (h : String) : List String :=
  (g.references.lookup h).getD []

/-- matchesQuery from graph/queries: each present, nonempty criterion must
pass; an absent criterion, and an empty kinds or tags or hash list, is
skipped entirely (the source guards each list filter with length greater
than zero). -/
def matchesQuery (block : ContextBlock) (query : BlockQuery) (g : ContextGraph) : Bool :=
  (match query.kinds with
    | some kinds => kinds.isEmpty || kinds.contains block.meta.kind
    | none => true) &&
  (match query.tags with
    | some tags => tags.isEmpty || tags.all (fun t => (block.meta.tags.getD []).contains t)
    | none => true) &&
  (match query.minSensitivity with
    | some minS => decide (0 ≤ compareSensitivity block.meta.sensitivity minS)
    | none => true) &&
  (match query.maxSensitivity with
    | some maxS => decide (compareSensitivity block.meta.sensitivity maxS ≤ 0)
    | none => true) &&
  (match query.source with
    | some s => block.meta.source == some s
    | none => true) &&
  (match query.minCreatedAt with
    | some t => decide (t ≤ block.meta.createdAt)
    | none => true) &&
  (match query.maxCreatedAt with
    | some t => decide (block.meta.createdAt ≤ t)
    | none => true) &&
  (match query.derivedFromAny with
    | some hs => hs.isEmpty || hs.any (fun h => (getDerivedFrom g block.blockHash).contains h)
    | none => true) &&
  (match query.notDerivedFromAny with
    | some hs => hs.isEmpty || !(hs.any (fun h => (getDerivedFrom g block.blockHash).contains h))
    | none => true) &&
  (match query.referencesAny with
    | some hs => hs.isEmpty || hs.any (fun h => (getReferences g block.blockHash).contains h)
    | none => true) &&
  (match query.excludeHashes with
    | some hs => hs.isEmpty || !(hs.contains block.blockHash)
    | none => true)

/-- select from graph/context-graph: filter all blocks by the query, in
store order. -/
def select (g : ContextGraph) (query : BlockQuery) : List ContextBlock :=
  g.blocks.filter (fun b => matchesQuery b query g)

/-- One step of mergeQueries: fold the next query into the accumulated
merged query, field by field, exactly as the source loop body does. On a
source conflict the kinds list is set to the empty list (the intended
impossible query) and the accumulated source is left in place. -/
def mergeQueryStep (merged : BlockQuery) (query : BlockQuery) : BlockQuery :=
  let merged := match query.kinds with
    | some qKinds => match merged.kinds with
      | some mKinds => { merged with kinds := some (qKinds.filter (fun k => mKinds.contains k)) }
      | none => { merged with kinds := some qKinds }
    | none => merged
  let merged := match query.tags with
    | some qTags => { merged with tags := some ((merged.tags.getD []) ++ qTags) }
    | none => merged
  let merged := match query.minSensitivity with
    | some qMin => match merged.minSensitivity with
      | some mMin =>
        if 0 < compareSensitivity qMin mMin then { merged with minSensitivity := some qMin }
        else merged
      | none => { merged with minSensitivity := some qMin }
    | none => merged
  let merged := match query.maxSensitivity with
    | some qMax => match merged.maxSensitivity with
      | some mMax =>
        if compareSensitivity qMax mMax < 0 then { merged with maxSensitivity := some qMax }
        else merged
      | none => { merged with maxSensitivity := some qMax }
    | none => merged
  let merged := match query.source with
    | some qSrc => match merged.source with
      | some mSrc =>
        if mSrc ≠ qSrc then { merged with kinds := some [] }
        else { merged with source := some qSrc }
      | none => { merged with source := some qSrc }
    | none => merged
  let merged := match query.minCreatedAt with
    | some qT => match merged.minCreatedAt with
      | some mT => { merged with minCreatedAt := some (max mT qT) }
      | none => { merged with minCreatedAt := some qT }
    | none => merged
  let merged := match query.maxCreatedAt with
    | some qT => match merged.maxCreatedAt with
      | some mT => { merged with maxCreatedAt := some (min mT qT) }
      | none => { merged with maxCreatedAt := some qT }
    | none => merged
  let merged := match query.derivedFromAny with
    | some hs => { merged with derivedFromAny := some ((merged.derivedFromAny.getD []) ++ hs) }
    | none => merged
  let merged := match query.notDerivedFromAny with
    | some hs =>
      { merged with notDerivedFromAny := some ((merged.notDerivedFromAny.getD []) ++ hs) }
    | none => merged
  let merged := match query.referencesAny with
    | some hs => { merged with referencesAny := some ((merged.referencesAny.getD []) ++ hs) }
    | none => merged
  let merged := match query.excludeHashes with
    | some hs => { merged with excludeHashes := some ((merged.excludeHashes.getD []) ++ hs) }
    | none => merged
  match query.maxTokens with
    | some qT => match merged.maxTokens with
      | some mT => { merged with maxTokens := some (min mT qT) }
      | none => { merged with maxTokens := some qT }
    | none => merged

/-- mergeQueries: AND-combine a list of queries starting from the empty
query. -/
def mergeQueries (queries : List BlockQuery) : BlockQuery :=
  queries.foldl mergeQueryStep {}

/-!
Views from graph/views: deterministic sort, stable prefix hash, token
budget application, and view construction.
-/

/-- The sort comparator of sortBlocksDeterministic as a less-or-equal
test: primary KIND_ORDER, secondary lexicographic block hash (the locale
compare of lower-case hex hashes is their code-point order). -/
def blockLe (a b : ContextBlock) : Bool :=
  decide (getKindIndex a.meta.kind < getKindIndex b.meta.kind) ||
    (decide (getKindIndex a.meta.kind = getKindIndex b.meta.kind) &&
      strLe a.blockHash b.blockHash)

/-- sortBlocksDeterministic: stable sort by kind order then hash. -/
def sortBlocksDeterministic (blocks : List ContextBlock) : List ContextBlock :=
  stableSort blockLe blocks

/-- computeStablePrefixHash: SHA-256 over the ordered block hashes joined
with a bar. -/
def computeStablePrefixHash (blocks : List ContextBlock) : String :=
  sha256Hex (strBytes (String.intercalate "|" (blocks.map (·.blockHash))))

/-- Confidence of a token estimate. -/
inductive Confidence where
  | exact : Confidence
  | high : Confidence
  | low : Confidence
deriving DecidableEq, Repr

/-- A token estimator: the per-block estimateBlock and the whole-list
estimate, both returning tokens and a confidence. These are the
caller-supplied external collaborators, modelled as pure functions. -/
structure TokenEstimator where
  estimateBlock : ContextBlock → Nat × Confidence
  estimate : List ContextBlock → Nat × Confidence

/-- A token estimate attached to a view. -/
structure ViewTokenEstimate where
  tokens : Nat
  confidence : Confidence
  truncated : Bool
deriving DecidableEq, Repr

/-- The lowest-confidence update of the budget loop: low is absorbing, and
high replaces exact. -/
def updateLowest (lowest conf : Confidence) : Confidence :=
  if conf = .low then .low
  else if conf = .high ∧ lowest = .exact then .high
  else lowest

/-- The budget loop of applyTokenBudget: walk the ordered blocks, add each
block estimate, and stop with truncated true at the first block whose
inclusion would push the total over the budget. -/
def budgetGo (est : TokenEstimator) (maxTokens : Nat) :
    List ContextBlock → Nat → Confidence → List ContextBlock × ViewTokenEstimate
  | [], total, lowest =>
    ([], { tokens := total, confidence := lowest, truncated := false })
  | b :: rest, total, lowest =>
    let e := est.estimateBlock b
    if maxTokens < total + e.1 then
      ([], { tokens := total, confidence := lowest, truncated := true })
    else
      let r := budgetGo est maxTokens rest (total + e.1) (updateLowest lowest e.2)
      (b :: r.1, r.2)

/-- applyTokenBudget from graph/views. -/
def applyTokenBudget (blocks : List ContextBlock) (est : TokenEstimator) (maxTokens : Nat) :
    List ContextBlock × ViewTokenEstimate :=
  budgetGo est maxTokens blocks 0 .exact

/-- A context view: ordered blocks, optional token estimate, stable prefix
hash, creation time. -/
structure ContextView where
  blocks : List ContextBlock
  tokenEstimate : Option ViewTokenEstimate
  stablePrefixHash : String
  createdAt : Nat

/-- createContextView from graph/views: select, sort deterministically,
apply the token budget when both an estimator and a budget are given,
estimate without enforcement when only an estimator is given, then freeze
with the stable prefix hash. The clock read is passed in as now. -/
def createContextView (g : ContextGraph) (query : BlockQuery)
    (tokenEstimator : Option TokenEstimator) (maxTokens : Option Nat) (now : Nat) :
    ContextView :=
  let selected := sortBlocksDeterministic (select g query)
  match tokenEstimator, maxTokens with
  | some est, some budget =>
    let r := applyTokenBudget selected est budget
    { blocks := r.1, tokenEstimate := some r.2,
      stablePrefixHash := computeStablePrefixHash r.1, createdAt := now }
  | some est, none =>
    let e := est.estimate selected
    { blocks := selected,
      tokenEstimate := some { tokens := e.1, confidence := e.2, truncated := false },
      stablePrefixHash := computeStablePrefixHash selected, createdAt := now }
  | none, _ =>
    { blocks := selected, tokenEstimate := none,
      stablePrefixHash := computeStablePrefixHash selected, createdAt := now }

/-!
The fork from builder/context-fork: sensitivity comparison, redacted
stubs, sensitivity filtering, and createFork.
-/

/-- exceedsSensitivityLevel: strictly above the maximum. -/
def exceedsSensitivityLevel (level maxLevel : Sensitivity) : Bool :=
  decide (sensIndex maxLevel < sensIndex level)

/-- The apostrophe character, used by the redaction reason template. -/
def apos : String := String.singleton (Char.ofNat 39)

/-- The redaction reason the fork builds for a block above the maximum
sensitivity, with both levels quoted. -/
def redactionReason (level maxLevel : Sensitivity) : String :=
  "Sensitivity level " ++ apos ++ sensStr level ++ apos
    ++ " exceeds maximum " ++ apos ++ sensStr maxLevel ++ apos

/-- The placeholder text the fork puts into every stub payload. -/
def stubPlaceholder : String := "[REDACTED - Sensitive content removed]"

/-- The canonicalize of the redacted-stub codec: rebuild the three-field
object, defaulting an absent placeholder, then sort its keys. -/
def redactedStubCanonicalize (payload : Json) : Json :=
  match payload with
  | .obj fs =>
    sortObjectKeys (.obj
      [("originalBlockHash", (fs.lookup "originalBlockHash").getD .null),
       ("reason", (fs.lookup "reason").getD .null),
       ("placeholder", (fs.lookup "placeholder").getD (.str "[REDACTED]"))])
  | j => j

/-- createRedactedStub: a public redacted-stub block at the original kind,
source and tags, with a fresh createdAt and a hash computed from the stub
payload through the redacted-stub codec. -/
def createRedactedStub (originalBlock : ContextBlock) (reason : String) (now : Nat) :
    ContextBlock :=
  let payload : Json := .obj
    [("originalBlockHash", .str originalBlock.blockHash),
     ("reason", .str reason),
     ("placeholder", .str stubPlaceholder)]
  let meta : BlockMeta :=
    { kind := originalBlock.meta.kind
      sensitivity := .public
      codecId := "redacted-stub"
      codecVersion := "1.0.0"
      createdAt := now
      source := originalBlock.meta.source
      tags := originalBlock.meta.tags }
  { blockHash := computeBlockHash meta payload (some redactedStubCanonicalize)
    meta := meta
    payload := payload }

/-- filterBySensitivity: map over the view blocks, replacing each block
above the maximum with its redacted stub and passing the rest through. -/
def filterBySensitivity (view : ContextView) (maxSensitivity : Sensitivity) (now : Nat) :
    List ContextBlock :=
  view.blocks.map (fun block =>
    if exceedsSensitivityLevel block.meta.sensitivity maxSensitivity then
      createRedactedStub block (redactionReason block.meta.sensitivity maxSensitivity) now
    else block)

/-- Fork options: the sensitivity cap (defaulting to public when absent)
and the history, state and budget switches. The undefined-by-default
boolean options of the source are plain booleans here, an absent option
being false exactly as the source treats it. -/
structure ContextForkOptions where
  includeHistory : Bool := false
  includeState : Bool := false
  maxSensitivity : Option Sensitivity := none
  budgetOverride : Option Nat := none

/-- createFork: filter by sensitivity, drop history blocks unless included,
drop state blocks unless included, recompute the stable prefix hash. A
budget override of zero is falsy in the source, so it falls back to the
parent estimate. -/
def createFork (parentView : ContextView) (options : ContextForkOptions) (now : Nat) :
    ContextView :=
  let maxSensitivity := options.maxSensitivity.getD .public
  let filteredBlocks := filterBySensitivity parentView maxSensitivity now
  let final1 :=
    if options.includeHistory then filteredBlocks
    else filteredBlocks.filter (fun b => !(b.meta.kind = BlockKind.history))
  let final2 :=
    if options.includeState then final1
    else final1.filter (fun b => !(b.meta.kind = BlockKind.state))
  { blocks := final2
    stablePrefixHash := computeStablePrefixHash final2
    createdAt := now
    tokenEstimate :=
      match options.budgetOverride with
      | some budget =>
        if budget = 0 then parentView.tokenEstimate
        else some { tokens := budget, confidence := .high, truncated := false }
      | none => parentView.tokenEstimate }

/-!
The compactor provenance helpers from pipeline/compactor, and the summary
block built by the Anthropic history summarizer from pipeline/summarizer.
-/

/-- createReplacementBlock: hash recomputed from the original metadata and
the new payload with no codec, source suffixed with the compacted marker,
tags extended with the step marker. The version argument is accepted and
unused, as in the source. -/
def createReplacementBlock (original : ContextBlock) (newPayload : Json)
    (method : String) (version : String) : ContextBlock :=
  let _ := version
  let blockHash := computeBlockHash original.meta newPayload none
  { blockHash := blockHash
    meta := { original.meta with
      source := some ((original.meta.source.getD "unknown") ++ ":compacted")
      tags := some ((original.meta.tags.getD []) ++ ["compacted:" ++ method]) }
    payload := newPayload }

/-- The summary block the Anthropic summarizer returns, given the summary
text that came back from the model call and the clock reading: payload of
summary text, original block count and timestamp; hash computed from the
first metadata with a summarized source suffix; metadata forced to kind
history with the summarized source suffix, a summarized tag appended, and
a fresh createdAt. Empty input would crash the source on blocks[0], so it
returns none here. -/
def anthropicSummaryBlock (blocks : List ContextBlock) (summary : String) (now : Nat) :
    Option ContextBlock :=
  match blocks with
  | [] => none
  | firstBlock :: _ =>
    let summaryPayload : Json := .obj
      [("summary", .str summary),
       ("originalBlockCount", .num (blocks.length : Int)),
       ("summarizedAt", .num (now : Int))]
    let hashMeta := { firstBlock.meta with
      source := some ((firstBlock.meta.source.getD "unknown") ++ ":summarized") }
    some
      { blockHash := computeBlockHash hashMeta summaryPayload none
        meta := { firstBlock.meta with
          kind := .history
          source := some ((firstBlock.meta.source.getD "unknown") ++ ":summarized")
          tags := some ((firstBlock.meta.tags.getD []) ++ ["summarized"])
          createdAt := now }
        payload := summaryPayload }

/-- Suffix test on strings, over their character lists. -/
def strEndsWith (s suffix : String) : Bool :=
  suffix.data.isSuffixOf s.data

/-!
The Gemini role-alternation pass from providers/gemini-compiler.
-/

/-- A Gemini message role. -/
inductive GRole where
  | user : GRole
  | model : GRole
deriving DecidableEq, Repr

/-- A Gemini message: a role and its opaque parts. -/
structure GMessage where
  role : GRole
  parts : List Json

/-- The merge loop of enforceAlternatingRoles, carrying the current role
and accumulated parts: a same-role message appends its parts; a role
switch flushes the accumulated message when its parts are nonempty, and
drops it otherwise. -/
def earGo : List GMessage → GRole → List Json → List GMessage
  | [], role, parts => if parts.isEmpty then [] else [⟨role, parts⟩]
  | m :: rest, role, parts =>
    if m.role = role then earGo rest role (parts ++ m.parts)
    else if parts.isEmpty then earGo rest m.role m.parts
    else ⟨role, parts⟩ :: earGo rest m.role m.parts

/-- enforceAlternatingRoles: merge adjacent same-role messages by
concatenating their parts. -/
def enforceAlternatingRoles (messages : List GMessage) : List GMessage :=
  match messages with
  | [] => []
  | m :: rest => earGo rest m.role m.parts

/-- The per-block token read of an estimator. -/
def estTokens (est : TokenEstimator) (b : ContextBlock) : Nat := (est.estimateBlock b).1

/-!
Concrete example inputs used by the per-claim witnesses and
counterexamples.
-/

/-- A C2 example metadata record. -/
def c2MetaA : BlockMeta :=
  ⟨.memory, .internal, "system-rules", "1.0.0", 1000, none, none⟩

/-- The same stable fields with different createdAt, source and tags. -/
def c2MetaB : BlockMeta :=
  ⟨.memory, .internal, "system-rules", "1.0.0", 2000, some "workflow-7", some ["t1"]⟩

/-- A C4 example estimator: per-block tokens read off createdAt. -/
def c4Est : TokenEstimator :=
  ⟨fun b => (b.meta.createdAt, .exact), fun _ => (0, .exact)⟩

/-- A C4 example block estimated at 3 tokens. -/
def c4Block1 : ContextBlock :=
  ⟨"c4a", ⟨.pinned, .public, "system-rules", "1.0.0", 3, none, none⟩, .null⟩

/-- A C4 example block estimated at 9 tokens. -/
def c4Block2 : ContextBlock :=
  ⟨"c4b", ⟨.turn, .public, "user-turn", "1.0.0", 9, none, none⟩, .null⟩

/-- A C6 query constraining source to source1. -/
def c6Query1 : BlockQuery := { source := some "source1" }

/-- A C6 query constraining source to source2. -/
def c6Query2 : BlockQuery := { source := some "source2" }

/-- A C6 block whose source is source1. -/
def c6Block : ContextBlock :=
  ⟨"h1", ⟨.memory, .public, "unsafe-text", "1.0.0", 100, some "source1", none⟩, .null⟩

/-- A C6 graph holding just that block. -/
def c6Graph : ContextGraph := ⟨[c6Block], [], []⟩

/-- The C8 counterexample input: an empty-parts model message between two
user messages. -/
def c8Messages : List GMessage :=
  [⟨.user, [.str "a"]⟩, ⟨.model, []⟩, ⟨.user, [.str "b"]⟩]

/-- The C8 witness input: three messages with nonempty parts, the first
two sharing the user role. -/
def c8WMessages : List GMessage :=
  [⟨.user, [.str "a"]⟩, ⟨.user, [.str "b"]⟩, ⟨.model, [.str "c"]⟩]

/-- The C9 counterexample estimator. -/
def c9CexEst : TokenEstimator := ⟨fun _ => (1, .exact), fun _ => (0, .exact)⟩

/-- The C9 counterexample graph: empty. -/
def c9CexGraph : ContextGraph := ⟨[], [], []⟩

/-- The C9 witness block. -/
def c9WBlock : ContextBlock :=
  ⟨"w9", ⟨.turn, .public, "user-turn", "1.0.0", 5, none, none⟩, .null⟩

/-- The C9 witness graph with one block. -/
def c9WGraph : ContextGraph := ⟨[c9WBlock], [], []⟩

/-- The C9 witness estimator, giving every block one token. -/
def c9WEst : TokenEstimator := ⟨fun _ => (1, .exact), fun l => (l.length, .low)⟩

/-- A C3 witness block of kind history with hash aa. -/
def c3Block1 : ContextBlock :=
  ⟨"aa", ⟨.history, .public, "conversation-history", "1.0.0", 1, none, none⟩, .null⟩

/-- A C3 witness block of kind pinned with hash bb. -/
def c3Block2 : ContextBlock :=
  ⟨"bb", ⟨.pinned, .public, "system-rules", "1.0.0", 2, none, none⟩, .null⟩

/-- A C3 witness block of kind history with hash ab. -/
def c3Block3 : ContextBlock :=
  ⟨"ab", ⟨.history, .public, "conversation-history", "1.0.0", 3, none, none⟩, .null⟩

/-- The C3 witness graph, stored out of order. -/
def c3Graph : ContextGraph := ⟨[c3Block1, c3Block2, c3Block3], [], []⟩

/-- The C5 counterexample block: restricted history. -/
def c5CexBlock : ContextBlock :=
  ⟨"hh", ⟨.history, .restricted, "conversation-history", "1.0.0", 10, none, none⟩, .null⟩

/-- The C5 counterexample parent view holding just that block. -/
def c5CexView : ContextView := ⟨[c5CexBlock], none, "x", 0⟩

/-- The C5 witness block: restricted memory with source and tags. -/
def c5WBlock : ContextBlock :=
  ⟨"w5", ⟨.memory, .restricted, "unsafe-text", "1.0.0", 10, some "src", some ["t"]⟩, .null⟩

/-- The C5 witness parent view. -/
def c5WView : ContextView := ⟨[c5WBlock], none, "x", 0⟩

/-- The C5 witness options: history and state kept, default cap. -/
def c5WOpts : ContextForkOptions := { includeHistory := true, includeState := true }

/-- The C10 witness block: internal state with source and tags. -/
def c10WBlock : ContextBlock :=
  ⟨"w10", ⟨.state, .internal, "unsafe-text", "1.0.0", 20, some "sess-2", some ["k"]⟩, .null⟩

/-- The C10 witness view. -/
def c10WView : ContextView := ⟨[c10WBlock], none, "y", 0⟩

/-- The C7 counterexample history block fed to the summarizer. -/
def c7Block : ContextBlock :=
  ⟨"h7", ⟨.history, .public, "conversation-history", "1.0.0", 10, none, none⟩, .null⟩

/-- The C1 example metadata record. -/
def c1Meta : BlockMeta :=
  ⟨.turn, .public, "unsafe-text", "1.0.0", 1000, none, none⟩

/-- The C1 witness payload: nested objects with unsorted keys and no
arrays. -/
def c1WPayload : Json :=
  .obj [("b", .obj [("d", .num 1), ("c", .null)]), ("a", .str "x")]

/-!
Order facts about the string comparison and the stable sort, feeding the
deterministic-view theorems.
-/
mutual
/-- On array-free values the sortObjectKeys of the code agrees with the
recursively key-sorted serialization of the spec: the two differ only in
how arrays are treated. -/
theorem sortObjectKeys_eq_spec (j : Json) (h : arrayFreeJson j = true) :
    sortObjectKeys j = specSortJson j := by
  match j with
  | .null => simp [sortObjectKeys, specSortJson]
  | .bool b => simp [sortObjectKeys, specSortJson]
  | .num n => simp [sortObjectKeys, specSortJson]
  | .str s => simp [sortObjectKeys, specSortJson]
  | .arr xs => simp [arrayFreeJson] at h
  | .obj fs =>
    rw [arrayFreeJson] at h
    simp only [sortObjectKeys, specSortJson, sortFieldVals_eq_spec fs h]

/-- Field-list version of sortObjectKeys_eq_spec. -/
theorem sortFieldVals_eq_spec (fs : List (String × Json)) (h : arrayFreeFields fs = true) :
    sortFieldVals fs = specSortFields fs := by
  match fs with
  | [] => simp [sortFieldVals, specSortFields]
  | (k, v) :: fs =>
    rw [arrayFreeFields, Bool.and_eq_true] at h
    simp only [sortFieldVals, specSortFields,
      sortObjectKeys_eq_spec v h.1, sortFieldVals_eq_spec fs h.2]
end


theorem charListLt_irrefl (cs : List Char) : charListLt cs cs = false := by
  induction cs with
  | nil => rfl
  | cons c cs ih => simp [charListLt, ih]

theorem charListLt_trans {a b c : List Char} (hab : charListLt a b = true)
    (hbc : charListLt b c = true) : charListLt a c = true := by
  induction a generalizing b c with
  | nil =>
    cases b with
    | nil => simp [charListLt] at hab
    | cons y ys =>
      cases c with
      | nil => simp [charListLt] at hbc
      | cons z zs => simp [charListLt]
  | cons x xs ih =>
    cases b with
    | nil => simp [charListLt] at hab
    | cons y ys =>
      cases c with
      | nil => simp [charListLt] at hbc
      | cons z zs =>
        simp only [charListLt, Bool.or_eq_true, Bool.and_eq_true, decide_eq_true_eq] at *
        rcases hab with h1 | ⟨h1, h1r⟩ <;> rcases hbc with h2 | ⟨h2, h2r⟩
        · exact Or.inl (Nat.lt_trans h1 h2)
        · exact Or.inl (h2 ▸ h1)
        · exact Or.inl (h1 ▸ h2)
        · exact Or.inr ⟨h1.trans h2, ih h1r h2r⟩

theorem charListLt_tri (a b : List Char) :
    charListLt a b = true ∨ a = b ∨ charListLt b a = true := by
  induction a generalizing b with
  | nil =>
    cases b with
    | nil => exact Or.inr (Or.inl rfl)
    | cons y ys => exact Or.inl (by simp [charListLt])
  | cons x xs ih =>
    cases b with
    | nil => exact Or.inr (Or.inr (by simp [charListLt]))
    | cons y ys =>
      rcases Nat.lt_trichotomy x.toNat y.toNat with h | h | h
      · exact Or.inl (by simp [charListLt, h])
      · have hxy : x = y := Char.ext (by
          have : x.val.toBitVec = y.val.toBitVec := by
            apply BitVec.toNat_injective
            exact h
          exact UInt32.eq_of_toBitVec_eq this)
        rcases ih ys with h2 | h2 | h2
        · exact Or.inl (by simp [charListLt, h, h2])
        · exact Or.inr (Or.inl (by rw [hxy, h2]))
        · exact Or.inr (Or.inr (by simp [charListLt, h.symm, h2]))
      · exact Or.inr (Or.inr (by simp [charListLt, h]))

theorem strLe_total (a b : String) : strLe a b = true ∨ strLe b a = true := by
  rcases charListLt_tri a.data b.data with h | h | h
  · exact Or.inl (by simp [strLe, strLt, h])
  · have hab : a = b := by cases a; cases b; exact congrArg String.mk h
    exact Or.inl (by simp [strLe, hab])
  · exact Or.inr (by simp [strLe, strLt, h])

theorem strLe_trans {a b c : String} (hab : strLe a b = true) (hbc : strLe b c = true) :
    strLe a c = true := by
  simp only [strLe, strLt, Bool.or_eq_true, beq_iff_eq] at *
  rcases hab with h1 | h1 <;> rcases hbc with h2 | h2
  · exact Or.inl (charListLt_trans h1 h2)
  · exact Or.inl (h2 ▸ h1)
  · exact Or.inl (h1 ▸ h2)
  · exact Or.inr (h1.trans h2)

theorem strLt_of_strLe_of_ne {a b : String} (h : strLe a b = true) (hne : a ≠ b) :
    strLt a b = true := by
  simp only [strLe, Bool.or_eq_true, beq_iff_eq] at h
  rcases h with h | h
  · exact h
  · exact absurd h hne

theorem insertLe_perm (le : α → α → Bool) (a : α) (l : List α) :
    (insertLe le a l).Perm (a :: l) := by
  induction l with
  | nil => exact List.Perm.refl _
  | cons b bs ih =>
    by_cases h : le b a = true
    · simpa [insertLe, h] using (ih.cons b).trans (List.Perm.swap a b bs)
    · simp [insertLe, h]

theorem foldl_insertLe_perm (le : α → α → Bool) (l acc : List α) :
    (l.foldl (fun acc a => insertLe le a acc) acc).Perm (acc ++ l) := by
  induction l generalizing acc with
  | nil => simp
  | cons x xs ih =>
    refine (ih (insertLe le x acc)).trans ?_
    have h1 : (insertLe le x acc ++ xs).Perm ((x :: acc) ++ xs) :=
      (insertLe_perm le x acc).append_right xs
    refine h1.trans ?_
    exact List.perm_middle.symm

theorem stableSort_perm (le : α → α → Bool) (l : List α) :
    (stableSort le l).Perm l := by
  simpa [stableSort] using foldl_insertLe_perm le l []

theorem insertLe_pairwise (le : α → α → Bool)
    (htrans : ∀ x y z, le x y = true → le y z = true → le x z = true)
    (htotal : ∀ x y, le x y = true ∨ le y x = true)
    (a : α) (l : List α) (h : l.Pairwise (le · · = true)) :
    (insertLe le a l).Pairwise (le · · = true) := by
  induction l with
  | nil => simp [insertLe]
  | cons b bs ih =>
    rcases List.pairwise_cons.mp h with ⟨hb, hbs⟩
    by_cases hba : le b a = true
    · rw [insertLe, if_pos hba]
      refine List.pairwise_cons.mpr ⟨?_, ih hbs⟩
      intro x hx
      rcases List.mem_cons.mp ((insertLe_perm le a bs).mem_iff.mp hx) with rfl | hx
      · exact hba
      · exact hb x hx
    · rw [insertLe, if_neg hba]
      have hab : le a b = true := (htotal a b).resolve_right (fun hc => hba hc)
      refine List.pairwise_cons.mpr ⟨?_, h⟩
      intro x hx
      rcases List.mem_cons.mp hx with rfl | hx
      · exact hab
      · exact htrans a b x hab (hb x hx)

theorem stableSort_pairwise (le : α → α → Bool)
    (htrans : ∀ x y z, le x y = true → le y z = true → le x z = true)
    (htotal : ∀ x y, le x y = true ∨ le y x = true)
    (l : List α) : (stableSort le l).Pairwise (le · · = true) := by
  suffices hgen : ∀ (l acc : List α), acc.Pairwise (le · · = true) →
      (l.foldl (fun acc a => insertLe le a acc) acc).Pairwise (le · · = true) by
    exact hgen l [] (List.Pairwise.nil)
  intro l
  induction l with
  | nil => intro acc h; simpa using h
  | cons x xs ih =>
    intro acc h
    exact ih (insertLe le x acc) (insertLe_pairwise le htrans htotal x acc h)

theorem blockLe_total (a b : ContextBlock) : blockLe a b = true ∨ blockLe b a = true := by
  simp only [blockLe, Bool.or_eq_true, Bool.and_eq_true, decide_eq_true_eq]
  rcases Nat.lt_trichotomy (getKindIndex a.meta.kind) (getKindIndex b.meta.kind) with h | h | h
  · exact Or.inl (Or.inl h)
  · rcases strLe_total a.blockHash b.blockHash with hs | hs
    · exact Or.inl (Or.inr ⟨h, hs⟩)
    · exact Or.inr (Or.inr ⟨h.symm, hs⟩)
  · exact Or.inr (Or.inl h)

theorem blockLe_trans (a b c : ContextBlock) (hab : blockLe a b = true)
    (hbc : blockLe b c = true) : blockLe a c = true := by
  simp only [blockLe, Bool.or_eq_true, Bool.and_eq_true, decide_eq_true_eq] at *
  rcases hab with h1 | ⟨h1, h1s⟩ <;> rcases hbc with h2 | ⟨h2, h2s⟩
  · exact Or.inl (Nat.lt_trans h1 h2)
  · exact Or.inl (h2 ▸ h1)
  · exact Or.inl (h1 ▸ h2)
  · exact Or.inr ⟨h1.trans h2, strLe_trans h1s h2s⟩

/-- Full behavior of the budget loop, for any running total within the
budget: the included blocks are a prefix, the reported tokens are the
running total plus the included estimates and stay within the budget,
truncation is reported exactly when something was left out, and the first
block left out would overflow the budget. -/
theorem budgetGo_spec (est : TokenEstimator) (maxTokens : Nat) (blocks : List ContextBlock)
    (total : Nat) (lowest : Confidence) (htotal : total ≤ maxTokens) :
    (budgetGo est maxTokens blocks total lowest).1 =
      blocks.take (budgetGo est maxTokens blocks total lowest).1.length ∧
    (budgetGo est maxTokens blocks total lowest).2.tokens =
      total + ((budgetGo est maxTokens blocks total lowest).1.map (estTokens est)).sum ∧
    (budgetGo est maxTokens blocks total lowest).2.tokens ≤ maxTokens ∧
    ((budgetGo est maxTokens blocks total lowest).2.truncated = true ↔
      (budgetGo est maxTokens blocks total lowest).1.length < blocks.length) ∧
    (∀ b, (blocks.drop (budgetGo est maxTokens blocks total lowest).1.length).head? = some b →
      maxTokens < (budgetGo est maxTokens blocks total lowest).2.tokens + estTokens est b) := by
  induction blocks generalizing total lowest with
  | nil =>
    refine ⟨rfl, by simp [budgetGo], by simpa [budgetGo] using htotal, by simp [budgetGo], ?_⟩
    intro b hb
    simp [budgetGo] at hb
  | cons x rest ih =>
    by_cases hover : maxTokens < total + (est.estimateBlock x).1
    · refine ⟨?_, ?_, ?_, ?_, ?_⟩ <;>
        simp only [budgetGo, if_pos hover]
      · simp
      · simp
      · simpa using htotal
      · simp
      · intro b hb
        simp only [List.length_nil, List.drop_zero, List.head?_cons] at hb
        cases hb
        simpa [estTokens] using hover
    · have hle : total + (est.estimateBlock x).1 ≤ maxTokens := Nat.le_of_not_lt hover
      obtain ⟨ih1, ih2, ih3, ih4, ih5⟩ :=
        ih (total + (est.estimateBlock x).1) (updateLowest lowest (est.estimateBlock x).2) hle
      refine ⟨?_, ?_, ?_, ?_, ?_⟩ <;>
        simp only [budgetGo, if_neg hover]
      · simpa [List.take_succ_cons] using ih1
      · simp only [List.map_cons, List.sum_cons, estTokens] at *
        omega
      · exact ih3
      · simpa using ih4
      · intro b hb
        simp only [List.length_cons, List.drop_succ_cons] at hb
        exact ih5 b hb

/-- A suffix appended to any string is a suffix of the result. -/
theorem strEndsWith_append (s t : String) : strEndsWith (s ++ t) t = true := by
  rw [strEndsWith, String.data_append]
  exact List.isSuffixOf_iff_suffix.mpr (List.suffix_append s.data t.data)

/-- The merge loop keeps role alternation when every accumulated and
incoming parts list is nonempty, and its first emitted message carries the
role being accumulated. -/
theorem earGo_chain (rest : List GMessage) (role : GRole) (parts : List Json)
    (hp : parts ≠ []) (hrest : ∀ m ∈ rest, m.parts ≠ []) :
    (earGo rest role parts).Chain' (fun a b => a.role ≠ b.role) ∧
    (∀ m, (earGo rest role parts).head? = some m → m.role = role) := by
  induction rest generalizing role parts with
  | nil =>
    rw [earGo, if_neg (by simpa using hp)]
    exact ⟨List.chain'_singleton _, by intro m hm; cases hm; rfl⟩
  | cons m rest ih =>
    by_cases hrole : m.role = role
    · rw [earGo, if_pos hrole]
      exact ih role (parts ++ m.parts) (by simp [hp])
        (fun x hx => hrest x (List.mem_cons_of_mem m hx))
    · rw [earGo, if_neg hrole, if_neg (by simpa using hp)]
      obtain ⟨ihc, ihh⟩ := ih m.role m.parts (hrest m (List.mem_cons_self m rest))
        (fun x hx => hrest x (List.mem_cons_of_mem m hx))
      refine ⟨List.chain'_cons'.mpr ⟨?_, ihc⟩, ?_⟩
      · intro y hy
        have := ihh y hy
        intro hcon
        exact hrole (by rw [← this, ← hcon])
      · intro y hy
        cases hy
        rfl

/-- The merge loop never loses or reorders parts: the concatenation of all
emitted parts is the accumulated parts followed by the remaining input
parts, whether or not empty-parts messages occur. -/
theorem earGo_flatten (rest : List GMessage) (role : GRole) (parts : List Json) :
    ((earGo rest role parts).map GMessage.parts).flatten =
      parts ++ (rest.map GMessage.parts).flatten := by
  induction rest generalizing role parts with
  | nil =>
    by_cases hp : parts.isEmpty
    · rw [earGo, if_pos hp]
      simp [List.isEmpty_iff.mp hp]
    · rw [earGo, if_neg hp]
      simp
  | cons m rest ih =>
    by_cases hrole : m.role = role
    · rw [earGo, if_pos hrole, ih]
      simp
    · by_cases hp : parts.isEmpty
      · rw [earGo, if_neg hrole, if_pos hp, ih]
        simp [List.isEmpty_iff.mp hp]
      · rw [earGo, if_neg hrole, if_neg hp]
        simp [ih]

/-!
Claim C2: volatile-field invariance of the block hash.
-/

/-- C2: two metadata records that agree on kind, sensitivity, codecId and
codecVersion give the same block hash for the same payload and codec, so
createdAt, source and tags never influence the hash. -/
theorem c2_volatile_invariance (m1 m2 : BlockMeta) (payload : Json)
    (codec : Option (Json → Json))
    (hk : m1.kind = m2.kind) (hs : m1.sensitivity = m2.sensitivity)
    (hc : m1.codecId = m2.codecId) (hv : m1.codecVersion = m2.codecVersion) :
    computeBlockHash m1 payload codec = computeBlockHash m2 payload codec := by
  unfold computeBlockHash extractStableMetaSubset
  rw [hk, hs, hc, hv]

/-- C2 witness: the invariance theorem applied to two concrete metadata
records that differ exactly in the volatile fields. -/
theorem c2_witness :
    c2MetaA.kind = c2MetaB.kind ∧ c2MetaA.sensitivity = c2MetaB.sensitivity ∧
    c2MetaA.codecId = c2MetaB.codecId ∧ c2MetaA.codecVersion = c2MetaB.codecVersion ∧
    c2MetaA.createdAt ≠ c2MetaB.createdAt ∧
    computeBlockHash c2MetaA (.str "Be concise") none =
      computeBlockHash c2MetaB (.str "Be concise") none :=
  ⟨rfl, rfl, rfl, rfl, by decide,
    c2_volatile_invariance c2MetaA c2MetaB (.str "Be concise") none rfl rfl rfl rfl⟩

/-!
Claim C4: the token budget is applied greedily in order.
-/

/-- C4: applyTokenBudget walks the sorted blocks in order and keeps the
longest prefix whose accumulated estimate stays within the budget: the
included blocks are an initial segment, their token sum is the reported
total and is at most the budget, truncated is reported exactly when some
block was excluded, and the first excluded block would overflow the
budget. -/
theorem c4_budget_respected (blocks : List ContextBlock) (est : TokenEstimator)
    (maxTokens : Nat) :
    (applyTokenBudget blocks est maxTokens).1 =
      blocks.take (applyTokenBudget blocks est maxTokens).1.length ∧
    (applyTokenBudget blocks est maxTokens).2.tokens =
      ((applyTokenBudget blocks est maxTokens).1.map (estTokens est)).sum ∧
    (applyTokenBudget blocks est maxTokens).2.tokens ≤ maxTokens ∧
    ((applyTokenBudget blocks est maxTokens).2.truncated = true ↔
      (applyTokenBudget blocks est maxTokens).1.length < blocks.length) ∧
    (∀ b, (blocks.drop (applyTokenBudget blocks est maxTokens).1.length).head? = some b →
      maxTokens < (applyTokenBudget blocks est maxTokens).2.tokens + estTokens est b) := by
  have h := budgetGo_spec est maxTokens blocks 0 .exact (Nat.zero_le maxTokens)
  simpa [applyTokenBudget] using h

/-- C4 witness: at budget 10 the included sum stays within the budget and
the first excluded block overflows it. -/
theorem c4_witness :
    (applyTokenBudget [c4Block1, c4Block2] c4Est 10).2.tokens ≤ 10 ∧
    10 < (applyTokenBudget [c4Block1, c4Block2] c4Est 10).2.tokens +
        estTokens c4Est c4Block2 :=
  ⟨(c4_budget_respected [c4Block1, c4Block2] c4Est 10).2.2.1,
   (c4_budget_respected [c4Block1, c4Block2] c4Est 10).2.2.2.2 c4Block2 rfl⟩

/-!
Claim C6: the merged impossible query still matches blocks.
-/

/-- C6: merging queries with conflicting sources does set kinds to the
empty list, but matchesQuery treats an empty kinds list as unconstrained
and the merged query keeps the first source, so selecting with the merged
query still returns the block with that source instead of the empty
result the specification promises. -/
theorem c6_impossible_query_bug :
    (mergeQueries [c6Query1, c6Query2]).kinds = some [] ∧
    (mergeQueries [c6Query1, c6Query2]).source = some "source1" ∧
    select c6Graph (mergeQueries [c6Query1, c6Query2]) = [c6Block] :=
  ⟨rfl, rfl, rfl⟩

/-!
Claim C8: Gemini role alternation after merging.
-/

/-- C8 amended: when every input message has nonempty parts, the output of
enforceAlternatingRoles has no two consecutive same-role messages, and the
concatenation of all parts is preserved in order, adjacent same-role
messages having been merged by concatenating their parts. An empty-parts
message is dropped, which is what breaks the unconditional claim. -/
theorem c8_alternation_amended (messages : List GMessage)
    (hne : ∀ m ∈ messages, m.parts ≠ []) :
    (enforceAlternatingRoles messages).Chain' (fun a b => a.role ≠ b.role) ∧
    ((enforceAlternatingRoles messages).map GMessage.parts).flatten =
      (messages.map GMessage.parts).flatten := by
  match messages with
  | [] => exact ⟨List.chain'_nil, rfl⟩
  | m :: rest =>
    refine ⟨(earGo_chain rest m.role m.parts (hne m (List.mem_cons_self m rest))
      (fun x hx => hne x (List.mem_cons_of_mem m hx))).1, ?_⟩
    simpa [enforceAlternatingRoles] using earGo_flatten rest m.role m.parts

/-- C8 counterexample: on that input the compiled output is two
consecutive user messages, so the unconditional alternation claim fails. -/
theorem c8_counterexample :
    ¬ (enforceAlternatingRoles c8Messages).Chain' (fun a b => a.role ≠ b.role) := by
  intro h
  have heq : enforceAlternatingRoles c8Messages =
      [⟨.user, [.str "a"]⟩, ⟨.user, [.str "b"]⟩] := rfl
  rw [heq] at h
  exact (List.chain'_cons.mp h).1 rfl

/-- C8 witness: the amended theorem applied to the concrete input. -/
theorem c8_witness :
    (enforceAlternatingRoles c8WMessages).Chain' (fun a b => a.role ≠ b.role) ∧
    ((enforceAlternatingRoles c8WMessages).map GMessage.parts).flatten =
      (c8WMessages.map GMessage.parts).flatten :=
  c8_alternation_amended c8WMessages (by
    intro m hm
    simp only [c8WMessages, List.mem_cons, List.not_mem_nil, or_false] at hm
    rcases hm with rfl | rfl | rfl <;> simp)

/-!
Claim C9: views with a zero token budget.
-/

/-- C9 amended: with a zero budget and an estimator that gives every block
a positive estimate, the view has no blocks, and its estimate reports
truncated exactly when the selection was nonempty; on an empty selection
the code reports truncated false, not true as claimed. -/
theorem c9_zero_budget_amended (g : ContextGraph) (query : BlockQuery)
    (est : TokenEstimator) (now : Nat)
    (hpos : ∀ b, 0 < (est.estimateBlock b).1) :
    (createContextView g query (some est) (some 0) now).blocks = [] ∧
    (select g query = [] →
      (createContextView g query (some est) (some 0) now).tokenEstimate =
        some ⟨0, .exact, false⟩) ∧
    (select g query ≠ [] →
      (createContextView g query (some est) (some 0) now).tokenEstimate =
        some ⟨0, .exact, true⟩) := by
  have hperm : (sortBlocksDeterministic (select g query)).Perm (select g query) :=
    stableSort_perm blockLe (select g query)
  cases hS : sortBlocksDeterministic (select g query) with
  | nil =>
    have hsel : select g query = [] := by
      rw [hS] at hperm
      exact List.nil_perm.mp hperm
    refine ⟨?_, fun _ => ?_, fun hne => absurd hsel hne⟩ <;>
      simp [createContextView, hS, applyTokenBudget, budgetGo]
  | cons b rest =>
    have hsel : select g query ≠ [] := by
      intro hcon
      rw [hcon] at hS
      simp [sortBlocksDeterministic, stableSort] at hS
    refine ⟨?_, fun hcon => absurd hcon hsel, fun _ => ?_⟩ <;>
      simp [createContextView, hS, applyTokenBudget, budgetGo, hpos b]

/-- C9 counterexample: on an empty graph a zero-budget view has empty
blocks, but its estimate records truncated false, not the claimed true. -/
theorem c9_counterexample :
    (createContextView c9CexGraph {} (some c9CexEst) (some 0) 0).blocks = [] ∧
    (createContextView c9CexGraph {} (some c9CexEst) (some 0) 0).tokenEstimate =
      some ⟨0, .exact, false⟩ :=
  ⟨rfl, rfl⟩

/-- C9 witness: the amended theorem applied to a nonempty selection. -/
theorem c9_witness :
    (createContextView c9WGraph {} (some c9WEst) (some 0) 7).blocks = [] ∧
    (createContextView c9WGraph {} (some c9WEst) (some 0) 7).tokenEstimate =
      some ⟨0, .exact, true⟩ :=
  ⟨(c9_zero_budget_amended c9WGraph {} c9WEst 7 (fun _ => Nat.one_pos)).1,
   (c9_zero_budget_amended c9WGraph {} c9WEst 7 (fun _ => Nat.one_pos)).2.2
     (fun h => nomatch h)⟩

/-!
Claim C3: deterministic view ordering.
-/

/-- C3: in every view created from a graph whose stored block hashes are
distinct, adjacent blocks are ordered by kind index, and within a run of
equal kinds the block hashes strictly increase lexicographically. -/
theorem c3_view_sorted (g : ContextGraph) (query : BlockQuery)
    (est : Option TokenEstimator) (maxTokens : Option Nat) (now : Nat)
    (hnd : (g.blocks.map ContextBlock.blockHash).Nodup) :
    (createContextView g query est maxTokens now).blocks.Chain'
      (fun a b => getKindIndex a.meta.kind ≤ getKindIndex b.meta.kind ∧
        (a.meta.kind = b.meta.kind → strLt a.blockHash b.blockHash = true)) := by
  have hndSel : ((select g query).map ContextBlock.blockHash).Nodup :=
    hnd.sublist ((List.filter_sublist g.blocks).map ContextBlock.blockHash)
  have hpermS : (sortBlocksDeterministic (select g query)).Perm (select g query) :=
    stableSort_perm blockLe (select g query)
  have hndS : ((sortBlocksDeterministic (select g query)).map ContextBlock.blockHash).Nodup :=
    ((hpermS.map ContextBlock.blockHash).nodup_iff).mpr hndSel
  have hpw : (sortBlocksDeterministic (select g query)).Pairwise (blockLe · · = true) :=
    stableSort_pairwise blockLe blockLe_trans blockLe_total (select g query)
  have hne : (sortBlocksDeterministic (select g query)).Pairwise
      (fun a b => a.blockHash ≠ b.blockHash) := List.pairwise_map.mp hndS
  have hgoal : (sortBlocksDeterministic (select g query)).Pairwise
      (fun a b => getKindIndex a.meta.kind ≤ getKindIndex b.meta.kind ∧
        (a.meta.kind = b.meta.kind → strLt a.blockHash b.blockHash = true)) := by
    refine (hpw.and hne).imp ?_
    intro a b ⟨hab, hne2⟩
    simp only [blockLe, Bool.or_eq_true, Bool.and_eq_true, decide_eq_true_eq] at hab
    constructor
    · rcases hab with h | ⟨h, _⟩
      · exact Nat.le_of_lt h
      · exact Nat.le_of_eq h
    · intro hk
      rcases hab with h | ⟨_, hle⟩
      · rw [hk] at h
        exact absurd h (Nat.lt_irrefl _)
      · exact strLt_of_strLe_of_ne hle hne2
  match est, maxTokens with
  | none, mt =>
    exact hgoal.chain'
  | some e, none =>
    exact hgoal.chain'
  | some e, some m =>
    have htake := (budgetGo_spec e m (sortBlocksDeterministic (select g query)) 0 .exact
      (Nat.zero_le m)).1
    show ((budgetGo e m (sortBlocksDeterministic (select g query)) 0 .exact).1).Chain' _
    rw [htake]
    exact (hgoal.sublist (List.take_sublist _ _)).chain'

/-- C3 witness: the ordering theorem applied to the concrete graph. -/
theorem c3_witness :
    (createContextView c3Graph {} none none 0).blocks.Chain'
      (fun a b => getKindIndex a.meta.kind ≤ getKindIndex b.meta.kind ∧
        (a.meta.kind = b.meta.kind → strLt a.blockHash b.blockHash = true)) :=
  c3_view_sorted c3Graph {} none none 0 (by decide)

/-!
Claim C5: fork sensitivity redaction.
-/

/-- C5 amended: when the fork options keep history and state blocks, every
parent block above the sensitivity cap appears in the forked view at its
own index as the redacted stub carrying the original hash, the templated
reason and public sensitivity, and every other block passes through
unchanged. With history or state excluded (the default), those blocks and
their stubs are dropped instead, which is what breaks the original
claim. -/
theorem c5_fork_redaction_amended (parentView : ContextView) (options : ContextForkOptions)
    (now : Nat) (hh : options.includeHistory = true) (hs : options.includeState = true)
    (i : Nat) (block : ContextBlock) (hb : parentView.blocks[i]? = some block) :
    (exceedsSensitivityLevel block.meta.sensitivity (options.maxSensitivity.getD .public) =
        true →
      (createFork parentView options now).blocks[i]? =
        some (createRedactedStub block
          (redactionReason block.meta.sensitivity (options.maxSensitivity.getD .public)) now) ∧
      (createRedactedStub block
          (redactionReason block.meta.sensitivity (options.maxSensitivity.getD .public))
          now).payload.getField "originalBlockHash" = some (.str block.blockHash) ∧
      (createRedactedStub block
          (redactionReason block.meta.sensitivity (options.maxSensitivity.getD .public))
          now).payload.getField "reason" =
        some (.str (redactionReason block.meta.sensitivity
          (options.maxSensitivity.getD .public))) ∧
      (createRedactedStub block
          (redactionReason block.meta.sensitivity (options.maxSensitivity.getD .public))
          now).meta.sensitivity = .public) ∧
    (exceedsSensitivityLevel block.meta.sensitivity (options.maxSensitivity.getD .public) =
        false →
      (createFork parentView options now).blocks[i]? = some block) := by
  have hblocks : (createFork parentView options now).blocks =
      filterBySensitivity parentView (options.maxSensitivity.getD .public) now := by
    simp [createFork, hh, hs]
  constructor
  · intro hx
    refine ⟨?_, ?_, ?_, rfl⟩
    · rw [hblocks, filterBySensitivity, List.getElem?_map, hb]
      simp [hx]
    · simp [createRedactedStub, Json.getField, List.lookup]
    · simp [createRedactedStub, Json.getField, List.lookup]
  · intro hx
    rw [hblocks, filterBySensitivity, List.getElem?_map, hb]
    simp [hx]

/-- C5 counterexample: with default options the fork of a view holding one
restricted history block is empty, so no redacted stub sits at the same
index as the claim requires. -/
theorem c5_counterexample : (createFork c5CexView {} 0).blocks = [] := rfl

/-- C5 witness: the amended theorem applied at index zero of the concrete
view. -/
theorem c5_witness :
    (createFork c5WView c5WOpts 3).blocks[0]? =
      some (createRedactedStub c5WBlock
        (redactionReason c5WBlock.meta.sensitivity .public) 3) ∧
    (createRedactedStub c5WBlock (redactionReason c5WBlock.meta.sensitivity .public)
        3).payload.getField "originalBlockHash" = some (.str c5WBlock.blockHash) :=
  ⟨((c5_fork_redaction_amended c5WView c5WOpts 3 rfl rfl 0 c5WBlock rfl).1 rfl).1,
   ((c5_fork_redaction_amended c5WView c5WOpts 3 rfl rfl 0 c5WBlock rfl).1 rfl).2.1⟩

/-!
Claim C10: the redacted stub preserves the frame of the original block.
-/

/-- C10: in the sensitivity-filtered block list, a block above the cap is
replaced at its own index by a stub that keeps the original kind, source
and tags, forces sensitivity to public and the codec to redacted-stub at
version 1.0.0, refreshes createdAt to the filtering clock, and carries
exactly the three-field stub payload; a block within the cap is passed
through unchanged. -/
theorem c10_stub_frame (view : ContextView) (maxSensitivity : Sensitivity) (now : Nat)
    (i : Nat) (block : ContextBlock) (hb : view.blocks[i]? = some block) :
    (exceedsSensitivityLevel block.meta.sensitivity maxSensitivity = true →
      (filterBySensitivity view maxSensitivity now)[i]? =
        some (createRedactedStub block
          (redactionReason block.meta.sensitivity maxSensitivity) now) ∧
      (createRedactedStub block (redactionReason block.meta.sensitivity maxSensitivity)
          now).meta.kind = block.meta.kind ∧
      (createRedactedStub block (redactionReason block.meta.sensitivity maxSensitivity)
          now).meta.source = block.meta.source ∧
      (createRedactedStub block (redactionReason block.meta.sensitivity maxSensitivity)
          now).meta.tags = block.meta.tags ∧
      (createRedactedStub block (redactionReason block.meta.sensitivity maxSensitivity)
          now).meta.sensitivity = .public ∧
      (createRedactedStub block (redactionReason block.meta.sensitivity maxSensitivity)
          now).meta.codecId = "redacted-stub" ∧
      (createRedactedStub block (redactionReason block.meta.sensitivity maxSensitivity)
          now).meta.codecVersion = "1.0.0" ∧
      (createRedactedStub block (redactionReason block.meta.sensitivity maxSensitivity)
          now).meta.createdAt = now ∧
      (createRedactedStub block (redactionReason block.meta.sensitivity maxSensitivity)
          now).payload = Json.obj
        [("originalBlockHash", .str block.blockHash),
         ("reason", .str (redactionReason block.meta.sensitivity maxSensitivity)),
         ("placeholder", .str stubPlaceholder)]) ∧
    (exceedsSensitivityLevel block.meta.sensitivity maxSensitivity = false →
      (filterBySensitivity view maxSensitivity now)[i]? = some block) := by
  constructor
  · intro hx
    refine ⟨?_, rfl, rfl, rfl, rfl, rfl, rfl, rfl, rfl⟩
    rw [filterBySensitivity, List.getElem?_map, hb]
    simp [hx]
  · intro hx
    rw [filterBySensitivity, List.getElem?_map, hb]
    simp [hx]

/-- C10 witness: the frame theorem applied at index zero of the concrete
view, with the preserved source surfaced. -/
theorem c10_witness :
    (filterBySensitivity c10WView .public 4)[0]? =
      some (createRedactedStub c10WBlock
        (redactionReason c10WBlock.meta.sensitivity .public) 4) ∧
    (createRedactedStub c10WBlock (redactionReason c10WBlock.meta.sensitivity .public)
        4).meta.source = c10WBlock.meta.source :=
  ⟨((c10_stub_frame c10WView .public 4 0 c10WBlock rfl).1 rfl).1,
   ((c10_stub_frame c10WView .public 4 0 c10WBlock rfl).1 rfl).2.2.1⟩

/-!
Claim C7: compactor provenance markers.
-/

/-- C7 amended: a replacement block built by createReplacementBlock (the
tool-output prune step) carries the compacted step tag, a source ending in
the compacted suffix, and a hash recomputed from the new payload; the
summary block built by the Anthropic history summarizer instead carries a
summarized tag and a source ending in the summarized suffix, its hash
likewise recomputed from the new summary payload, so the compacted markers
of the original claim do not hold for the summarize history step. -/
theorem c7_provenance_amended :
    (∀ (original : ContextBlock) (newPayload : Json) (method version : String),
      ("compacted:" ++ method) ∈
        (createReplacementBlock original newPayload method version).meta.tags.getD [] ∧
      strEndsWith
        ((createReplacementBlock original newPayload method version).meta.source.getD "")
        ":compacted" = true ∧
      (createReplacementBlock original newPayload method version).blockHash =
        computeBlockHash original.meta newPayload none) ∧
    (∀ (firstBlock : ContextBlock) (rest : List ContextBlock) (summary : String)
      (now : Nat) (b : ContextBlock),
      anthropicSummaryBlock (firstBlock :: rest) summary now = some b →
      "summarized" ∈ b.meta.tags.getD [] ∧
      strEndsWith (b.meta.source.getD "") ":summarized" = true ∧
      b.blockHash = computeBlockHash
        { firstBlock.meta with
          source := some ((firstBlock.meta.source.getD "unknown") ++ ":summarized") }
        b.payload none) := by
  constructor
  · intro original newPayload method version
    refine ⟨?_, ?_, rfl⟩
    · simp [createReplacementBlock]
    · simpa [createReplacementBlock] using
        strEndsWith_append (original.meta.source.getD "unknown") ":compacted"
  · intro firstBlock rest summary now b h
    rw [anthropicSummaryBlock] at h
    injection h with h
    subst h
    refine ⟨?_, ?_, rfl⟩
    · simp
    · simpa using
        strEndsWith_append (firstBlock.meta.source.getD "unknown") ":summarized"

/-- C7 counterexample: the summary block the summarizer produces carries
neither the compacted step tag nor a source ending in the compacted
suffix. -/
theorem c7_counterexample :
    (anthropicSummaryBlock [c7Block] "s" 0).elim False (fun b =>
      ¬ ("compacted:summarize_history" ∈ b.meta.tags.getD []) ∧
      strEndsWith (b.meta.source.getD "") ":compacted" = false) := by
  refine ⟨?_, ?_⟩
  · intro h
    simp [anthropicSummaryBlock, c7Block] at h
  · decide

/-- C7 witness: the amended theorem applied to a concrete replacement and
a concrete summary block. -/
theorem c7_witness :
    ("compacted:tool_output_prune" ∈
      (createReplacementBlock c7Block (.str "p") "tool_output_prune" "1.0.0").meta.tags.getD
        []) ∧
    ((anthropicSummaryBlock [c7Block] "s" 0).elim True (fun b =>
      "summarized" ∈ b.meta.tags.getD [])) :=
  ⟨(c7_provenance_amended.1 c7Block (.str "p") "tool_output_prune" "1.0.0").1,
   (c7_provenance_amended.2 c7Block [] "s" 0 _ rfl).1⟩

/-!
Claim C1: the block hash and recursively key-sorted JSON.
-/

set_option maxRecDepth 1000000 in
/-- C1 counterexample: the actual block hash of a concrete block differs
from the SHA-256 of the recursively key-sorted serialization the claim
describes, because the stable meta subset serializes in construction order
kind, sensitivity, codecId, codecVersion rather than sorted order. -/
theorem c1_counterexample :
    computeBlockHash c1Meta .null none ≠
      sha256Hex (strBytes (Json.stringify (specSortJson
        (.obj [("meta", stableMetaJson (extractStableMetaSubset c1Meta)),
               ("payload", .null)])))) := by
  decide

/-- C1 amended: the block hash is the SHA-256 of the serialized object
with the stable meta subset in construction order and the codec-canonical
payload; with the sortObjectKeys canonicalizer and an array-free payload
the payload part equals the recursively key-sorted serialization of the
claim, while objects nested inside arrays keep their input key order. -/
theorem c1_block_hash_amended (meta : BlockMeta) (payload : Json)
    (hfree : arrayFreeJson payload = true) :
    computeBlockHash meta payload (some sortObjectKeys) =
      sha256Hex (strBytes (Json.stringify
        (.obj [("meta", stableMetaJson (extractStableMetaSubset meta)),
               ("payload", specSortJson payload)]))) := by
  show sha256Hex (strBytes (Json.stringify
      (.obj [("meta", stableMetaJson (extractStableMetaSubset meta)),
             ("payload", sortObjectKeys payload)]))) = _
  rw [sortObjectKeys_eq_spec payload hfree]

/-- C1 witness: the amended theorem applied to the concrete payload. -/
theorem c1_witness :
    arrayFreeJson c1WPayload = true ∧
    computeBlockHash c1Meta c1WPayload (some sortObjectKeys) =
      sha256Hex (strBytes (Json.stringify
        (.obj [("meta", stableMetaJson (extractStableMetaSubset c1Meta)),
               ("payload", specSortJson c1WPayload)]))) :=
  ⟨rfl, c1_block_hash_amended c1Meta c1WPayload rfl⟩

end ContextSpec
